import Mathlib

/-!
# DNS query construction (part 1 of the "implement DNS in a weekend" notebook)

Shallow embedding of the wire-format encoder defined in `src/part_1.ipynb`:

* `encode_dns_name` — the label-prefixed domain-name encoding
  (`domain_name.encode("ascii").split(b".")`, one length byte per part, a
  terminating zero byte);
* `header_to_bytes` — six header fields packed with `struct.pack("!HHHHHH", ...)`;
* `question_to_bytes` — encoded name followed by `struct.pack("!HH", type_, class_)`;
* `build_query` — header and question concatenated, with flags
  `RECURSION_DESIRED = 1 << 8`, `num_questions = 1` and `class_ = CLASS_IN`.

Bytes are modelled as `List Nat` (each entry intended `< 256`); Python ints are
modelled as `Int` where a negative value is representable (header/question
fields), and fallible operations (`str.encode("ascii")` raising
`UnicodeEncodeError`, `bytes([n])` raising `ValueError` for `n > 255`,
`struct.pack("!H", v)` raising `struct.error` outside `[0, 65535]`) return
`Option`.
-/

/-- Python's `str.encode("ascii")` on a list of characters: each code point
`≤ 127` becomes one byte; any larger code point raises `UnicodeEncodeError`,
modelled as `none`. -/
def asciiEncode : List Char → Option (List Nat)
  | [] => some []
  | c :: rest =>
    if c.toNat ≤ 127 then (asciiEncode rest).map (fun bs => c.toNat :: bs)
    else none

/-- Python's `bytes.split(sep)` for a one-byte separator: splitting always
yields at least one (possibly empty) part, and `b"".split(b".") == [b""]`. -/
def splitOnByte (sep : Nat) : List Nat → List (List Nat)
  | [] => [[]]
  | b :: rest =>
    let r := splitOnByte sep rest
    if b = sep then [] :: r else (b :: r.headI) :: r.tail

/-- The loop body of `encode_dns_name`: for each part emit
`bytes([len(part)]) + part`.  `bytes([n])` raises `ValueError` when
`n > 255`, modelled as `none`. -/
def encodeParts : List (List Nat) → Option (List Nat)
  | [] => some []
  | p :: ps =>
    if p.length ≤ 255 then
      (encodeParts ps).map (fun r => (p.length :: p) ++ r)
    else none

/-- `encode_dns_name(domain_name)` from the notebook:
split `domain_name.encode("ascii")` on `b"."` (byte 46), prefix every part
with its length byte, and append a final zero byte. -/
def encode_dns_name (domain_name : String) : Option (List Nat) := do
  let bs ← asciiEncode domain_name.data
  let encoded ← encodeParts (splitOnByte 46 bs)
  return encoded ++ [0]

/-- `DNSHeader` dataclass: six integer fields in declared order, the four
counts defaulting to `0`. -/
structure DNSHeader where
  id : Int
  flags : Int
  num_questions : Int := 0
  num_answers : Int := 0
  num_authorities : Int := 0
  num_additionals : Int := 0

/-- `DNSQuestion` dataclass: an already-encoded name plus integer type and
class fields. -/
structure DNSQuestion where
  name : List Nat
  type_ : Int
  class_ : Int

/-- `struct.pack("!H", v)`: big-endian unsigned 16-bit serialization, raising
`struct.error` (modelled as `none`) when `v` is outside `[0, 65535]`. -/
def packU16BE (v : Int) : Option (List Nat) :=
  if 0 ≤ v ∧ v ≤ 65535 then some [v.toNat / 256, v.toNat % 256] else none

/-- The two bytes of a big-endian unsigned 16-bit value: the pure shape of
`packU16BE` on an in-range input. -/
def u16be (v : Int) : List Nat := [v.toNat / 256, v.toNat % 256]

/-- `header_to_bytes(header)`: `struct.pack("!HHHHHH", *fields)`, the six
fields in declared order. -/
def header_to_bytes (header : DNSHeader) : Option (List Nat) := do
  let b1 ← packU16BE header.id
  let b2 ← packU16BE header.flags
  let b3 ← packU16BE header.num_questions
  let b4 ← packU16BE header.num_answers
  let b5 ← packU16BE header.num_authorities
  let b6 ← packU16BE header.num_additionals
  return b1 ++ b2 ++ b3 ++ b4 ++ b5 ++ b6

/-- `question_to_bytes(question)`: the name bytes followed by
`struct.pack("!HH", question.type_, question.class_)`. -/
def question_to_bytes (question : DNSQuestion) : Option (List Nat) := do
  let bt ← packU16BE question.type_
  let bc ← packU16BE question.class_
  return question.name ++ bt ++ bc

/-- `TYPE_A = 1` from the notebook. -/
def TYPE_A : Int := 1

/-- `CLASS_IN = 1` from the notebook. -/
def CLASS_IN : Int := 1

/-- `RECURSION_DESIRED = 1 << 8` from `build_query`. -/
def RECURSION_DESIRED : Int := ((1 <<< 8 : Nat) : Int)

/-- `build_query(domain_name, record_type)` from the notebook.  The source
draws `id = random.randint(0, 65535)` from a module-level seeded generator;
the transaction id is passed here as an explicit argument (the spec's
injectable id provider), so a fixed id is a concrete first argument. -/
def build_query (id : Int) (domain_name : String) (record_type : Int) :
    Option (List Nat) := do
  let name ← encode_dns_name domain_name
  let header : DNSHeader :=
    ⟨id, RECURSION_DESIRED, 1, 0, 0, 0⟩
  let question : DNSQuestion := ⟨name, record_type, CLASS_IN⟩
  let hb ← header_to_bytes header
  let qb ← question_to_bytes question
  return hb ++ qb

/-- Reads an encoded domain name back as a list of labels: repeatedly read a
length prefix and that many bytes, stopping at the terminating zero length
byte, which must be the last byte consumed.  `none` on truncated input or
trailing garbage. -/
def decodeLabels (bs : List Nat) : Option (List (List Nat)) :=
  match bs with
  | [] => none
  | 0 :: rest => if rest = [] then some [] else none
  | (n + 1) :: rest =>
    if n + 1 ≤ rest.length then
      (decodeLabels (rest.drop (n + 1))).map (fun ls => rest.take (n + 1) :: ls)
    else none
termination_by bs.length
decreasing_by
  simp only [List.length_drop, List.length_cons]
  omega

/-- C1: `build_query` with the transaction id fixed to `0x8298`, domain
`"www.example.com"` and record type `1` returns exactly the bytes of hex
`82980100000100000000000003777777076578616d706c6503636f6d0000010001`:
id `0x8298`, flags `0x0100`, counts 1/0/0/0, the encoded name
`03 www 07 example 03 com 00`, type `0x0001`, class `0x0001`. -/
theorem build_query_www_example_fixed_id :
    build_query 0x8298 "www.example.com" 1 =
      some [0x82, 0x98, 0x01, 0x00, 0x00, 0x01, 0x00, 0x00, 0x00, 0x00,
            0x00, 0x00,
            3, 119, 119, 119, 7, 101, 120, 97, 109, 112, 108, 101,
            3, 99, 111, 109, 0,
            0x00, 0x01, 0x00, 0x01] := by
  rfl

/-- C8: `encode_dns_name "google.com"` returns exactly the 12 bytes
`06 676f6f676c65 03 636f6d 00`. -/
theorem encode_google_com_bytes :
    encode_dns_name "google.com" =
      some [0x06, 0x67, 0x6f, 0x6f, 0x67, 0x6c, 0x65, 0x03, 0x63, 0x6f,
            0x6d, 0x00] := by
  rfl

/-- C10: `encode_dns_name ""` returns the 2 bytes `00 00` — a zero-length
label prefix for the single empty part, then the terminator — and not the
1-byte root-name encoding `00`. -/
theorem encode_empty_string :
    encode_dns_name "" = some [0x00, 0x00] := by
  rfl

/-- C2 counterexample: `encode_dns_name "google.com."` ends in TWO
consecutive zero bytes, not one — the trailing empty part produced by the
split contributes its own zero length byte before the final terminator, so
the code does double-terminate, contrary to the claim. -/
theorem encode_trailing_dot_double_zero :
    encode_dns_name "google.com." =
      some [0x06, 0x67, 0x6f, 0x6f, 0x67, 0x6c, 0x65, 0x03, 0x63, 0x6f,
            0x6d, 0x00, 0x00] ∧
    ¬ encode_dns_name "google.com." =
      some [0x06, 0x67, 0x6f, 0x6f, 0x67, 0x6c, 0x65, 0x03, 0x63, 0x6f,
            0x6d, 0x00] := by
  constructor
  · rfl
  · decide

/-- C6 counterexample: `"a."` is an ASCII domain name whose dot-separated
parts (`"a"` and the empty trailing part) are each at most 63 bytes, yet the
output of `encode_dns_name` ends in two zero bytes rather than a single one,
and decoding it by length prefixes does not recover the two-part label
sequence `[[97], []]` — the zero length byte of the empty label is taken as
the terminator, leaving a trailing byte. -/
theorem encode_roundtrip_fails_on_empty_label :
    encode_dns_name "a." = some [1, 97, 0, 0] ∧
    splitOnByte 46 [97, 46] = [[97], []] ∧
    decodeLabels [1, 97, 0, 0] = none := by
  refine ⟨rfl, rfl, ?_⟩
  rw [decodeLabels]
  norm_num
  rw [decodeLabels]
  norm_num

/-- `packU16BE` succeeds on an in-range value, giving the two big-endian
bytes. -/
theorem packU16BE_of_inRange (v : Int) (h0 : 0 ≤ v) (h1 : v ≤ 65535) :
    packU16BE v = some (u16be v) := by
  simp [packU16BE, u16be, h0, h1]

/-- `packU16BE` succeeding forces the value into `[0, 65535]`. -/
theorem packU16BE_eq_some (v : Int) (bs : List Nat)
    (h : packU16BE v = some bs) : 0 ≤ v ∧ v ≤ 65535 := by
  by_contra hc
  simp [packU16BE] at h
  rcases h with ⟨⟨h0, h1⟩, _⟩
  exact hc ⟨h0, h1⟩

/-- Computation of `build_query` on an id and record type within the 16-bit
range and a domain name whose encoding succeeds: the serialized header
(id bytes, flags `0x0100`, counts `1, 0, 0, 0`), then the encoded name, the
record type and class `1`. -/
theorem build_query_eq (id t : Int) (d : String) (name : List Nat)
    (hname : encode_dns_name d = some name)
    (hid0 : 0 ≤ id) (hid1 : id ≤ 65535) (ht0 : 0 ≤ t) (ht1 : t ≤ 65535) :
    build_query id d t =
      some (u16be id ++
            ([1, 0, 0, 1, 0, 0, 0, 0, 0, 0] ++
              (name ++ (u16be t ++ [0, 1])))) := by
  simp [build_query, hname, header_to_bytes, question_to_bytes,
        RECURSION_DESIRED, CLASS_IN, packU16BE, u16be,
        hid0, hid1, ht0, ht1]

/-- `asciiEncode` fails as soon as the character list contains a code point
at least 128. -/
theorem asciiEncode_eq_none_of_mem (l : List Char) (c : Char)
    (hc : c ∈ l) (h128 : 128 ≤ c.toNat) : asciiEncode l = none := by
  induction l with
  | nil => cases hc
  | cons a rest ih =>
    rcases List.mem_cons.mp hc with rfl | hmem
    · have hna : ¬ c.toNat ≤ 127 := by omega
      simp [asciiEncode, hna]
    · by_cases ha : a.toNat ≤ 127
      · simp [asciiEncode, ha, ih hmem]
      · simp [asciiEncode, ha]

/-- C3: a domain name containing any non-ASCII character (code point 128 or
more) makes `encode_dns_name` fail — `str.encode("ascii")` raises
`UnicodeEncodeError` before any byte is produced — and `build_query`
propagates the failure for every transaction id and record type, so no byte
output is ever returned. -/
theorem encode_non_ascii_fails (d : String) (c : Char)
    (hc : c ∈ d.data) (h128 : 128 ≤ c.toNat) :
    encode_dns_name d = none ∧
      ∀ (id t : Int), build_query id d t = none := by
  have henc : encode_dns_name d = none := by
    simp [encode_dns_name, asciiEncode_eq_none_of_mem d.data c hc h128]
  exact ⟨henc, fun id t => by simp [build_query, henc]⟩

/-- C3 witness: the domain `"gøogle.com"` contains the non-ASCII character
`'ø'` (code point 248), so both `encode_dns_name` and `build_query` return
no bytes on it. -/
theorem encode_non_ascii_fails_witness :
    ('ø' ∈ "gøogle.com".data ∧ 128 ≤ 'ø'.toNat) ∧
      encode_dns_name "gøogle.com" = none ∧
      build_query 33432 "gøogle.com" 1 = none := by
  have h := encode_non_ascii_fails "gøogle.com" 'ø' (by decide) (by decide)
  exact ⟨⟨by decide, by decide⟩, h.1, h.2 33432 1⟩

/-- C4: whenever the name encoding succeeds and the id and record type are
16-bit values, `build_query` returns a buffer of length exactly
`12 + len(encoded_name) + 4`. -/
theorem build_query_length (id t : Int) (d : String) (name : List Nat)
    (hname : encode_dns_name d = some name)
    (hid0 : 0 ≤ id) (hid1 : id ≤ 65535) (ht0 : 0 ≤ t) (ht1 : t ≤ 65535) :
    ∃ q, build_query id d t = some q ∧
      q.length = 12 + name.length + 4 := by
  refine ⟨_, build_query_eq id t d name hname hid0 hid1 ht0 ht1, ?_⟩
  simp [u16be]
  omega

/-- C4 witness: `"example.com"` encodes to 13 bytes, and `build_query` with
id `0x8298` and type `1` on it returns a 29-byte buffer (`12 + 13 + 4`). -/
theorem build_query_length_witness :
    encode_dns_name "example.com" =
      some [7, 101, 120, 97, 109, 112, 108, 101, 3, 99, 111, 109, 0] ∧
    ∃ q, build_query 33432 "example.com" 1 = some q ∧
      q.length = 12 + 13 + 4 := by
  refine ⟨rfl, ?_⟩
  have h := build_query_length 33432 1 "example.com"
    [7, 101, 120, 97, 109, 112, 108, 101, 3, 99, 111, 109, 0]
    rfl (by norm_num) (by norm_num) (by norm_num) (by norm_num)
  simpa using h

/-- C5: every query built by `build_query` (encoding succeeding, id and
record type 16-bit) carries in its 12 header bytes, right after the two id
bytes, the flags bytes `0x01 0x00` (only the Recursion Desired bit
`0x0100` set), `num_questions` bytes `0x00 0x01`, and all-zero bytes for
`num_answers`, `num_authorities` and `num_additionals`. -/
theorem build_query_header_fields (id t : Int) (d : String) (name : List Nat)
    (hname : encode_dns_name d = some name)
    (hid0 : 0 ≤ id) (hid1 : id ≤ 65535) (ht0 : 0 ≤ t) (ht1 : t ≤ 65535) :
    ∃ q, build_query id d t = some q ∧
      (q.drop 2).take 10 = [1, 0, 0, 1, 0, 0, 0, 0, 0, 0] := by
  refine ⟨_, build_query_eq id t d name hname hid0 hid1 ht0 ht1, ?_⟩
  rw [List.drop_left' (by simp [u16be]),
      List.take_left' (by simp)]

/-- C5 witness: the query built for `"example.com"`, type `1`, id `0x8298`
has header bytes 2–11 equal to flags `0x0100` and counts `1, 0, 0, 0`. -/
theorem build_query_header_fields_witness :
    encode_dns_name "example.com" =
      some [7, 101, 120, 97, 109, 112, 108, 101, 3, 99, 111, 109, 0] ∧
    ∃ q, build_query 33432 "example.com" 1 = some q ∧
      (q.drop 2).take 10 = [1, 0, 0, 1, 0, 0, 0, 0, 0, 0] := by
  refine ⟨rfl, ?_⟩
  exact build_query_header_fields 33432 1 "example.com"
    [7, 101, 120, 97, 109, 112, 108, 101, 3, 99, 111, 109, 0]
    rfl (by norm_num) (by norm_num) (by norm_num) (by norm_num)

/-- C7: on a header whose six fields all lie in `[0, 65535]`,
`header_to_bytes` returns the six fields serialized in declared order, each
as a big-endian unsigned 16-bit integer, and that output is exactly 12
bytes. -/
theorem header_to_bytes_twelve_bytes (header : DNSHeader)
    (hr : (0 ≤ header.id ∧ header.id ≤ 65535) ∧
          (0 ≤ header.flags ∧ header.flags ≤ 65535) ∧
          (0 ≤ header.num_questions ∧ header.num_questions ≤ 65535) ∧
          (0 ≤ header.num_answers ∧ header.num_answers ≤ 65535) ∧
          (0 ≤ header.num_authorities ∧ header.num_authorities ≤ 65535) ∧
          (0 ≤ header.num_additionals ∧ header.num_additionals ≤ 65535)) :
    header_to_bytes header =
      some (u16be header.id ++ u16be header.flags ++
            u16be header.num_questions ++ u16be header.num_answers ++
            u16be header.num_authorities ++ u16be header.num_additionals) ∧
    (u16be header.id ++ u16be header.flags ++
      u16be header.num_questions ++ u16be header.num_answers ++
      u16be header.num_authorities ++ u16be header.num_additionals).length
        = 12 := by
  obtain ⟨⟨a0, a1⟩, ⟨b0, b1⟩, ⟨c0, c1⟩, ⟨d0, d1⟩, ⟨e0, e1⟩, ⟨f0, f1⟩⟩ := hr
  constructor
  · simp [header_to_bytes,
          packU16BE_of_inRange _ a0 a1, packU16BE_of_inRange _ b0 b1,
          packU16BE_of_inRange _ c0 c1, packU16BE_of_inRange _ d0 d1,
          packU16BE_of_inRange _ e0 e1, packU16BE_of_inRange _ f0 f1]
  · simp [u16be]

/-- C7 witness: the notebook's example header
`DNSHeader(id=0x1314, flags=0, num_questions=1, ...)` serializes to the 12
bytes `13 14 00 00 00 01 00 00 00 00 00 00`. -/
theorem header_to_bytes_twelve_bytes_witness :
    header_to_bytes ⟨0x1314, 0, 1, 0, 0, 0⟩ =
      some [0x13, 0x14, 0, 0, 0, 1, 0, 0, 0, 0, 0, 0] := by
  have h := header_to_bytes_twelve_bytes ⟨0x1314, 0, 1, 0, 0, 0⟩
    (by norm_num)
  rw [h.1]
  rfl

/-- C9: if any of the six header fields is negative or exceeds 65535,
`header_to_bytes` returns no bytes at all — `struct.pack("!H", v)` raises
`struct.error` — rather than truncating or emitting 12 wrong bytes. -/
theorem header_to_bytes_out_of_range_none (header : DNSHeader)
    (hout : (header.id < 0 ∨ 65535 < header.id) ∨
            (header.flags < 0 ∨ 65535 < header.flags) ∨
            (header.num_questions < 0 ∨ 65535 < header.num_questions) ∨
            (header.num_answers < 0 ∨ 65535 < header.num_answers) ∨
            (header.num_authorities < 0 ∨ 65535 < header.num_authorities) ∨
            (header.num_additionals < 0 ∨ 65535 < header.num_additionals)) :
    header_to_bytes header = none := by
  cases heq : header_to_bytes header with
  | none => rfl
  | some bs =>
    exfalso
    simp only [header_to_bytes, Option.bind_eq_bind, Option.bind_eq_some,
               Option.some.injEq] at heq
    obtain ⟨b1, h1, b2, h2, b3, h3, b4, h4, b5, h5, b6, h6, -⟩ := heq
    have r1 := packU16BE_eq_some _ _ h1
    have r2 := packU16BE_eq_some _ _ h2
    have r3 := packU16BE_eq_some _ _ h3
    have r4 := packU16BE_eq_some _ _ h4
    have r5 := packU16BE_eq_some _ _ h5
    have r6 := packU16BE_eq_some _ _ h6
    omega

/-- C9 witness: a header whose id is `70000` (beyond 16 bits) makes
`header_to_bytes` return nothing. -/
theorem header_to_bytes_out_of_range_none_witness :
    header_to_bytes ⟨70000, 0, 1, 0, 0, 0⟩ = none := by
  exact header_to_bytes_out_of_range_none ⟨70000, 0, 1, 0, 0, 0⟩
    (by norm_num)

/-- Appending `'.'` to the character list appends byte 46 to a successful
ASCII encoding (and preserves failure). -/
theorem asciiEncode_append_dot (l : List Char) :
    asciiEncode (l ++ ['.']) =
      (asciiEncode l).map (fun bs => bs ++ [46]) := by
  induction l with
  | nil => rfl
  | cons c rest ih =>
    rw [List.cons_append, asciiEncode, asciiEncode, ih]
    by_cases hc : c.toNat ≤ 127
    · rw [if_pos hc, if_pos hc]
      cases asciiEncode rest <;> rfl
    · rw [if_neg hc, if_neg hc]
      rfl

/-- Splitting always yields at least one part. -/
theorem splitOnByte_ne_nil (sep : Nat) (l : List Nat) :
    splitOnByte sep l ≠ [] := by
  cases l with
  | nil => simp [splitOnByte]
  | cons b rest =>
    rw [splitOnByte]
    split <;> simp

/-- Appending the separator byte appends one empty part to the split. -/
theorem splitOnByte_append_sep (sep : Nat) (l : List Nat) :
    splitOnByte sep (l ++ [sep]) = splitOnByte sep l ++ [[]] := by
  induction l with
  | nil => simp [splitOnByte]
  | cons b rest ih =>
    rw [List.cons_append, splitOnByte, splitOnByte, ih]
    cases hsp : splitOnByte sep rest with
    | nil => exact absurd hsp (splitOnByte_ne_nil sep rest)
    | cons p ps => split <;> simp

/-- Appending one empty part to the part list appends one zero byte to a
successful part encoding (and preserves failure). -/
theorem encodeParts_append_nil (parts : List (List Nat)) :
    encodeParts (parts ++ [[]]) =
      (encodeParts parts).map (fun r => r ++ [0]) := by
  induction parts with
  | nil => rfl
  | cons p ps ih =>
    rw [List.cons_append, encodeParts, encodeParts, ih]
    by_cases hp : p.length ≤ 255
    · rw [if_pos hp, if_pos hp]
      cases encodeParts ps <;> simp
    · rw [if_neg hp, if_neg hp]
      rfl

/-- C2 (amended): a trailing `.` on the domain name contributes an
additional zero-length label before the terminator, so
`encode_dns_name (d ++ ".")` is `encode_dns_name d` with one extra zero
byte appended (both failing together on non-ASCII input): the output for a
name ending in `.` ends in two zero bytes, not one. -/
theorem encode_dns_name_trailing_dot (d : String) :
    encode_dns_name (d ++ ".") =
      (encode_dns_name d).map (fun bs => bs ++ [0]) := by
  have hdata : (d ++ ".").data = d.data ++ ['.'] := by
    simp
  simp only [encode_dns_name, hdata, asciiEncode_append_dot]
  cases asciiEncode d.data with
  | none => rfl
  | some bs =>
    simp only [Option.bind_eq_bind, Option.map_some', Option.some_bind,
               splitOnByte_append_sep, encodeParts_append_nil]
    cases encodeParts (splitOnByte 46 bs) <;> simp

/-- Decoding the lone terminator byte yields the empty label sequence. -/
theorem decodeLabels_term : decodeLabels [0] = some [] := by
  rw [decodeLabels]
  simp

/-- Unfolding `decodeLabels` on a nonzero length prefix that fits in the
remaining bytes. -/
theorem decodeLabels_cons_pos (n : Nat) (rest : List Nat)
    (h : n + 1 ≤ rest.length) :
    decodeLabels ((n + 1) :: rest) =
      (decodeLabels (rest.drop (n + 1))).map
        (fun ls => rest.take (n + 1) :: ls) := by
  rw [decodeLabels]
  simp [h]

/-- Unfolding `encodeParts` on a part whose length fits in one byte. -/
theorem encodeParts_cons_eq (p : List Nat) (ps : List (List Nat))
    (hp : p.length ≤ 255) :
    encodeParts (p :: ps) =
      (encodeParts ps).map (fun r => (p.length :: p) ++ r) := by
  rw [encodeParts, if_pos hp]

/-- `encodeParts` succeeds whenever every part fits in one length byte. -/
theorem encodeParts_isSome (parts : List (List Nat))
    (h : ∀ p ∈ parts, p.length ≤ 255) :
    ∃ e, encodeParts parts = some e := by
  induction parts with
  | nil => exact ⟨[], rfl⟩
  | cons p ps ih =>
    obtain ⟨e', he'⟩ := ih (fun q hq => h q (List.mem_cons_of_mem _ hq))
    refine ⟨(p.length :: p) ++ e', ?_⟩
    rw [encodeParts_cons_eq p ps (h p (List.mem_cons_self p ps)), he']
    rfl

/-- Reading length-prefixed labels undoes `encodeParts` when every part is
nonempty and fits in one length byte. -/
theorem decode_encodeParts (parts : List (List Nat))
    (hall : ∀ p ∈ parts, p ≠ [] ∧ p.length ≤ 255) :
    ∀ e, encodeParts parts = some e →
      decodeLabels (e ++ [0]) = some parts := by
  induction parts with
  | nil =>
    intro e he
    simp only [encodeParts, Option.some.injEq] at he
    subst he
    exact decodeLabels_term
  | cons p ps ih =>
    intro e he
    have hp := hall p (List.mem_cons_self p ps)
    rw [encodeParts_cons_eq p ps hp.2] at he
    cases hps : encodeParts ps with
    | none => rw [hps] at he; simp at he
    | some e' =>
      rw [hps] at he
      simp only [Option.map_some', Option.some.injEq] at he
      subst he
      have hrw : ((p.length :: p) ++ e') ++ [0] =
          p.length :: (p ++ (e' ++ [0])) := by
        simp
      rw [hrw]
      obtain ⟨k, hk⟩ : ∃ k, p.length = k + 1 := by
        cases hq : p with
        | nil => exact absurd hq hp.1
        | cons a as => exact ⟨as.length, by simp⟩
      have hlen : k + 1 ≤ (p ++ (e' ++ [0])).length := by
        simp [List.length_append]
        omega
      rw [hk, decodeLabels_cons_pos k _ hlen,
          List.take_left' hk, List.drop_left' hk,
          ih (fun q hq => hall q (List.mem_cons_of_mem _ hq)) e' hps]
      rfl

/-- C6 (amended): for every ASCII domain name whose dot-separated parts are
each NONEMPTY and at most 63 bytes long, `encode_dns_name` succeeds, its
output begins with a length byte equal to the first label's length, ends
with the zero terminator, and reading the output back by length prefixes
recovers exactly the original label sequence.  (The original claim also
covered empty labels — e.g. a trailing dot — where the round trip fails,
see the counterexample.) -/
theorem encode_dns_name_roundtrip (d : String) (bs : List Nat)
    (hbs : asciiEncode d.data = some bs)
    (hparts : ∀ p ∈ splitOnByte 46 bs, p ≠ [] ∧ p.length ≤ 63) :
    ∃ name, encode_dns_name d = some name ∧
      name.head? = (splitOnByte 46 bs).head?.map List.length ∧
      name.getLast? = some 0 ∧
      decodeLabels name = some (splitOnByte 46 bs) := by
  have h255 : ∀ p ∈ splitOnByte 46 bs, p ≠ [] ∧ p.length ≤ 255 :=
    fun p hp => ⟨(hparts p hp).1, le_trans (hparts p hp).2 (by norm_num)⟩
  obtain ⟨e, he⟩ := encodeParts_isSome _ (fun p hp => (h255 p hp).2)
  refine ⟨e ++ [0], ?_, ?_, ?_, ?_⟩
  · simp [encode_dns_name, hbs, he]
  · cases hsp : splitOnByte 46 bs with
    | nil => exact absurd hsp (splitOnByte_ne_nil 46 bs)
    | cons p ps =>
      rw [hsp] at he
      have hp := h255 p (by rw [hsp]; exact List.mem_cons_self p ps)
      rw [encodeParts_cons_eq p ps hp.2] at he
      cases hps : encodeParts ps with
      | none => rw [hps] at he; simp at he
      | some e' =>
        rw [hps] at he
        simp only [Option.map_some', Option.some.injEq] at he
        subst he
        simp
  · exact List.getLast?_concat e
  · exact decode_encodeParts _ h255 e he

/-- C6 witness: for `"google.com"` (ASCII, labels `google` and `com`,
both nonempty and at most 63 bytes) the encoded name starts with `6`, ends
with `0`, and decodes back to the two labels. -/
theorem encode_dns_name_roundtrip_witness :
    (asciiEncode "google.com".data =
        some [103, 111, 111, 103, 108, 101, 46, 99, 111, 109] ∧
      ∀ p ∈ splitOnByte 46 [103, 111, 111, 103, 108, 101, 46, 99, 111, 109],
        p ≠ [] ∧ p.length ≤ 63) ∧
    ∃ name, encode_dns_name "google.com" = some name ∧
      name.head? =
        (splitOnByte 46
          [103, 111, 111, 103, 108, 101, 46, 99, 111, 109]).head?.map
            List.length ∧
      name.getLast? = some 0 ∧
      decodeLabels name =
        some (splitOnByte 46 [103, 111, 111, 103, 108, 101, 46, 99, 111, 109]) := by
  refine ⟨⟨rfl, by decide⟩, ?_⟩
  exact encode_dns_name_roundtrip "google.com"
    [103, 111, 111, 103, 108, 101, 46, 99, 111, 109] rfl (by decide)
